import Mathlib

/-!
Verification of the runtime type-descriptor subsystem (`runtime/type.go`):
the name codec, the cross-module offset resolvers, the cycle-safe structural
equality check `typesEqual`, and the deduplication pass `typelinksinit`.

Shallow embedding conventions:
* machine addresses and `uintptr` values are `Nat` taken modulo `2 ^ 64`;
  the null pointer is address `0`;
* 32-bit offsets (`nameOff`, `typeOff`, `textOff`) are `Int`;
* byte memory holding the encoded name records is a function `Nat → Nat`
  read through `byteAt` (which truncates to a byte);
* the descriptor table is a partial map `Nat → Option TypeDesc`; the
  kind-specific trailer that Go reads by casting the base pointer
  (`(*structtype)(unsafe.Pointer(t))`, ...) is carried inline in the
  `ext` field, and the `uncommontype.pkgpath` word that Go locates with
  the per-kind overlay in `uncommon()` is carried in `uPkgpath`
  (meaningful exactly when the uncommon flag is set);
* Go functions that can `throw` (abort the process) or fault are modelled
  with `Option` results, `none` standing for the abort.
-/

/-- Word size of the address space: `uintptr` arithmetic wraps mod `2 ^ 64`. -/
def wordSize : Nat := 2 ^ 64

/-- Wrapping `uintptr` addition. -/
def uadd (a b : Nat) : Nat := (a + b) % wordSize

/-- Wrapping `uintptr` subtraction. -/
def usub (a b : Nat) : Nat := (a % wordSize + wordSize - b % wordSize) % wordSize

/-- Go's `uintptr(off)` conversion of a signed 32-bit offset. -/
def toUintptr (off : Int) : Nat := (off % (wordSize : Int)).toNat

/-- Read one byte of memory. -/
def byteAt (m : Nat → Nat) (a : Nat) : Nat := m a % 256

/-- tflag bit: type has an uncommon trailer (`tflagUncommon`). -/
def tflagUncommon : Nat := 1

/-- tflag bit: textual form carries an extra leading star (`tflagExtraStar`). -/
def tflagExtraStar : Nat := 2

/-- tflag bit: type has a declared name (`tflagNamed`). -/
def tflagNamed : Nat := 4

/-- Modelled from the spec: the closed kind enumeration (`typekind.go` is not
part of the given sources).  The spec fixes `boolean..complex` as a contiguous
primitive range followed by the composite kinds; the numeric values are the
toolchain ABI constants. -/
def kindBool : Nat := 1

/-- Last primitive kind of the contiguous `boolean..complex` range. -/
def kindComplex128 : Nat := 16

/-- Array kind tag. -/
def kindArray : Nat := 17

/-- Channel kind tag. -/
def kindChan : Nat := 18

/-- Function kind tag. -/
def kindFunc : Nat := 19

/-- Interface kind tag. -/
def kindInterface : Nat := 20

/-- Map kind tag. -/
def kindMap : Nat := 21

/-- Pointer kind tag. -/
def kindPtr : Nat := 22

/-- Slice kind tag. -/
def kindSlice : Nat := 23

/-- String kind tag. -/
def kindString : Nat := 24

/-- Struct kind tag. -/
def kindStruct : Nat := 25

/-- Unsafe-pointer kind tag. -/
def kindUnsafePointer : Nat := 26

/-- Mask selecting the kind tag out of the kind byte (`kindMask`). -/
def kindMask : Nat := 31

/-- An interface method header (`imethod`): name offset and type offset. -/
structure IMethod where
  name : Int
  ityp : Int

/-- A struct field (`structfield`): the field's name record address, the
field type's descriptor address, and the packed offset/anonymous word. -/
structure StructField where
  fname : Nat
  ftyp : Nat
  offsetAnon : Nat

/-- Kind-specific trailer of a descriptor.  Go overlays these layouts over
the base header by pointer casts; here the trailer is carried inline.
For `func` the inline argument array that follows the trailer in memory is
modelled as an unbounded index function, as Go reads it through a
`(*[1 << 20]*_type)` reinterpretation.  For `iface`, `mhdrAddr` is the
address of the backing array of the method slice (which may live in another
module), used as the resolution context for method name/type offsets. -/
inductive TypeExt where
  | base
  | arr (elem : Nat) (slice : Nat) (len : Nat)
  | chan (elem : Nat) (dir : Nat)
  | func (inCount : Nat) (outCount : Nat) (args : Nat → Nat)
  | iface (pkgpath : Nat) (mhdrAddr : Nat) (mhdr : List IMethod)
  | mp (key : Nat) (elem : Nat)
  | ptr (elem : Nat)
  | slice (elem : Nat)
  | strukt (pkgPath : Nat) (fields : List StructField)

/-- The base descriptor header (`_type`) together with its inline trailer.
`uPkgpath` is the `pkgpath` word of the optional `uncommontype` trailer,
meaningful exactly when `tflag` has the uncommon bit. -/
structure TypeDesc where
  size : Nat := 0
  ptrdata : Nat := 0
  hash : Nat
  tflag : Nat
  kind : Nat
  str : Int
  ptrToThis : Int := 0
  uPkgpath : Int := 0
  ext : TypeExt := .base

/-- One entry of a module's code-segment table (`textsect`). -/
structure TextSect where
  vaddr : Nat
  length : Nat
  baseaddr : Nat

/-- Modelled from the spec: one module of the registry (`moduledata` is not
part of the given sources).  A module owns the address range
`[types, etypes)` for its descriptor table, a list of typelink offsets, an
optional offset-override map (`typemap`, absent = Go's nil map), and a code
range with an optional multi-segment table. -/
structure Moduledata where
  types : Nat
  etypes : Nat
  typelinks : List Int := []
  typemap : Option (Int → Option Nat) := none
  text : Nat := 0
  etext : Nat := 0
  textsectmap : List TextSect := []

/-- The global state the resolvers read: the ordered module registry
(`firstmoduledata` chain), the runtime-created object registry
(`reflectOffs.m`), the descriptor heap and the byte memory. -/
structure World where
  modules : List Moduledata
  reflectM : Int → Option Nat
  heap : Nat → Option TypeDesc
  mem : Nat → Nat
  goarchIsWasm : Bool := false

/-- First module of the registry whose `[types, etypes)` range contains
`base` (the resolvers' scan of the `firstmoduledata` chain). -/
def findModule (mods : List Moduledata) (base : Nat) : Option Moduledata :=
  mods.find? (fun md => decide (md.types ≤ base) && decide (base < md.etypes))

/-- `resolveNameOff`: resolve a name offset against a context address.
Result is the address of the name record's bytes (`0` = the empty
`name{}`); `none` models the fatal `throw`. -/
def resolveNameOff (w : World) (ptrInModule : Nat) (off : Int) : Option Nat :=
  if off = 0 then some 0
  else
    let base := ptrInModule
    match findModule w.modules base with
    | some md =>
      let res := uadd md.types (toUintptr off)
      if res > md.etypes then none else some res
    | none =>
      match w.reflectM off with
      | some res => some res
      | none => none

/-- `resolveTypeOff`: resolve a type offset against a context address.
Result is the descriptor address (`0` = the nil descriptor); `none` models
the fatal `throw`.  A module's override map is consulted before the raw
offset arithmetic; a nil map (`typemap = none`) and a missing entry both
fall through, mirroring Go's nil-map lookup semantics. -/
def resolveTypeOff (w : World) (ptrInModule : Nat) (off : Int) : Option Nat :=
  if off = 0 then some 0
  else
    let base := ptrInModule
    match findModule w.modules base with
    | none =>
      match w.reflectM off with
      | some res => if res = 0 then none else some res
      | none => none
    | some md =>
      let tmv := match md.typemap with
        | none => 0
        | some tm => (tm off).getD 0
      if tmv ≠ 0 then some tmv
      else
        let res := uadd md.types (toUintptr off)
        if res > md.etypes then none else some res

/-- `(*_type).textOff`: resolve a code offset.  With more than one code
segment the segment table is scanned for the first entry whose closed range
`[vaddr, vaddr+length]` contains the offset; otherwise the single-region
computation `text + off` is used.  `none` models the fatal `throw`. -/
def textOff (w : World) (t : Nat) (off : Int) : Option Nat :=
  let base := t
  match findModule w.modules base with
  | none =>
    match w.reflectM off with
    | some res => if res = 0 then none else some res
    | none => none
  | some md =>
    let ov := toUintptr off
    let res :=
      if 1 < md.textsectmap.length then
        match md.textsectmap.find?
            (fun s => decide (s.vaddr ≤ ov) && decide (ov ≤ uadd s.vaddr s.length)) with
        | some s => usub (uadd s.baseaddr ov) s.vaddr
        | none => 0
      else uadd md.text ov
    if res > md.etext && !w.goarchIsWasm then none else some res

/-- `name.nameLen`: 16-bit big-endian identifier length at byte offsets 1-2. -/
def nameLen (m : Nat → Nat) (b : Nat) : Nat :=
  byteAt m (b + 1) <<< 8 ||| byteAt m (b + 2)

/-- `name.tagLen`: zero unless bit 1 of the flags byte is set, else the
16-bit big-endian length stored right after the identifier bytes. -/
def tagLen (m : Nat → Nat) (b : Nat) : Nat :=
  if byteAt m b &&& 2 = 0 then 0
  else
    let off := 3 + nameLen m b
    byteAt m (b + off) <<< 8 ||| byteAt m (b + off + 1)

/-- `name.name`: the identifier bytes, starting at byte offset 3; empty for
the nil record or a zero length. -/
def nameName (m : Nat → Nat) (b : Nat) : List Nat :=
  if b = 0 then []
  else
    let nl := nameLen m b
    if nl = 0 then []
    else (List.range nl).map (fun i => byteAt m (b + 3 + i))

/-- `name.tag`: the tag bytes, following the 2-byte tag length that sits
right after the identifier; empty when the tag length is zero. -/
def nameTag (m : Nat → Nat) (b : Nat) : List Nat :=
  let tl := tagLen m b
  if tl = 0 then []
  else
    let nl := nameLen m b
    (List.range tl).map (fun i => byteAt m (b + 3 + nl + 2 + i))

/-- Decode 4 little-endian bytes as a signed 32-bit value (the `copy` into
an `int32` in `name.pkgPath`, on a little-endian target). -/
def decodeI32le (b0 b1 b2 b3 : Nat) : Int :=
  let u := b0 + b1 * 256 + b2 * 65536 + b3 * 16777216
  if u < 2 ^ 31 then (u : Int) else (u : Int) - 2 ^ 32

/-- `name.pkgPath`: empty unless bit 2 of the flags byte is set; otherwise
the 4-byte offset that follows the identifier (and the tag, when one is
present) is resolved against the record's own address and the identifier of
the resolved record is returned.  `none` models the resolver's throw. -/
def namePkgPath (w : World) (b : Nat) : Option (List Nat) :=
  if b = 0 then some []
  else if byteAt w.mem b &&& 4 = 0 then some []
  else
    let off0 := 3 + nameLen w.mem b
    let off1 := if 0 < tagLen w.mem b then off0 + 2 + tagLen w.mem b else off0
    let pkOff := decodeI32le (byteAt w.mem (b + off1)) (byteAt w.mem (b + off1 + 1))
      (byteAt w.mem (b + off1 + 2)) (byteAt w.mem (b + off1 + 3))
    (resolveNameOff w b pkOff).map (fun nb => nameName w.mem nb)

/-- `(*_type).string`: resolve the descriptor's name offset and return the
identifier, dropping the first byte when the extra-star flag is set.  The
drop is Go's `s[1:]`, which faults on an empty string (`none`); `none`
also models a throwing name resolution. -/
def typeString (w : World) (t : Nat) (d : TypeDesc) : Option (List Nat) :=
  match resolveNameOff w t d.str with
  | none => none
  | some nb =>
    let s := nameName w.mem nb
    if d.tflag &&& tflagExtraStar ≠ 0 then
      if s = [] then none else some (s.drop 1)
    else some s

/-- Backward scan of `(*_type).name`: the loop variable `i` starts at
`len(s) - 1` and walks down to the last index holding `'.'` (byte 46), or
to `-1` when there is none.  The `Nat` argument is `i + 1`. -/
def lastDotIdx (s : List Nat) : Nat → Int
  | 0 => -1
  | i + 1 => if s.getD i 0 = 46 then (i : Int) else lastDotIdx s i

/-- `(*_type).name`: empty when the named flag is clear, else the suffix of
the textual form after the last `'.'` (the whole string when none). -/
def typeName (w : World) (t : Nat) : Option (List Nat) :=
  match w.heap t with
  | none => none
  | some d =>
    if d.tflag &&& tflagNamed = 0 then some []
    else
      match typeString w t d with
      | none => none
      | some s => some (s.drop (lastDotIdx s s.length + 1).toNat)

/-- `(*_type).pkgpath`: the uncommon trailer's package path when uncommon
data is present, else the package-path name embedded in the struct or
interface trailer, else empty. -/
def pkgpath (w : World) (t : Nat) : Option (List Nat) :=
  match w.heap t with
  | none => none
  | some d =>
    if d.tflag &&& tflagUncommon ≠ 0 then
      match resolveNameOff w t d.uPkgpath with
      | some nb => some (nameName w.mem nb)
      | none => none
    else if d.kind &&& kindMask = kindStruct then
      match d.ext with
      | .strukt pk _ => some (nameName w.mem pk)
      | _ => none
    else if d.kind &&& kindMask = kindInterface then
      match d.ext with
      | .iface pk _ _ => some (nameName w.mem pk)
      | _ => none
    else some []

/-- `(*functype).in`: view of the first `inCount` entries of the inline
argument array. -/
def funcInList (ic : Nat) (args : Nat → Nat) : List Nat :=
  (List.range ic).map args

/-- `(*functype).out`: view of the entries `inCount ..< inCount + outCount`
of the inline argument array, where the stored output count has the
variadic high bit masked off. -/
def funcOutList (ic oc : Nat) (args : Nat → Nat) : List Nat :=
  (List.range (oc &&& (2 ^ 15 - 1))).map (fun i => args (ic + i))

/-- `(*functype).dotdotdot`: the variadic bit of the stored output count. -/
def funcDotdotdot (oc : Nat) : Bool := oc &&& 2 ^ 15 != 0

/-- Result of a structural-equality call: fuel exhaustion (a modelling
artifact, never reached with sufficient fuel), a fatal abort inside the
comparison (throwing resolver, impossible kind, or a fault), or a boolean
verdict together with the updated memo (Go mutates the `seen` map in
place; the functional translation threads it). -/
inductive TRes where
  | fuelOut
  | thrown
  | val (b : Bool) (seen : List (Nat × Nat))
deriving DecidableEq

/-- Sequence two comparison steps: Go's `if !typesEqual(..) { return false }`
/ `a && b` pattern.  A `true` verdict continues with the threaded memo; a
`false` verdict, a throw and fuel exhaustion all pass through. -/
def TRes.andThen (r : TRes) (k : List (Nat × Nat) → TRes) : TRes :=
  match r with
  | .val true s' => k s'
  | r => r

/-- Post-compose a pure boolean conjunct onto a verdict (Go's
`typesEqual(..) && at.len == av.len`). -/
def TRes.withBool (r : TRes) (f : Bool → Bool) : TRes :=
  match r with
  | .val b s' => .val (f b) s'
  | r => r

/-- Outcome of the checks `typesEqual` performs before dispatching on the
kind: equal kind tags, equal textual forms, and matching uncommon data. -/
inductive Pre where
  | thr
  | fls
  | ok
deriving DecidableEq

/-- The common prefix of `typesEqual`: kind tags must agree, the textual
forms must agree, and if either side carries uncommon data both must, with
equal package paths. -/
def preCheck (w : World) (t v : Nat) (dt dv : TypeDesc) : Pre :=
  if dt.kind &&& kindMask ≠ dv.kind &&& kindMask then .fls
  else
    match typeString w t dt, typeString w v dv with
    | some st, some sv =>
      if st ≠ sv then .fls
      else
        let hut := dt.tflag &&& tflagUncommon ≠ 0
        let huv := dv.tflag &&& tflagUncommon ≠ 0
        if hut ∨ huv then
          if ¬ (hut ∧ huv) then .fls
          else
            match resolveNameOff w t dt.uPkgpath, resolveNameOff w v dv.uPkgpath with
            | some pt, some pv =>
              if nameName w.mem pt ≠ nameName w.mem pv then .fls else .ok
            | _, _ => .thr
        else .ok
    | _, _ => .thr

/-- Pairwise equality loop over two parameter/result views of equal
length (the `in`/`out` loops of the `kindFunc` case), parameterized by
the one-level-less equality check `teq` so the recursion is structural. -/
def typesEqualListF (teq : Nat → Nat → List (Nat × Nat) → TRes) :
    List Nat → List Nat → List (Nat × Nat) → TRes
  | [], _, seen => .val true seen
  | _ :: _, [], _ => .thrown
  | t :: ts, v :: vs, seen =>
    (teq t v seen).andThen (fun s' => typesEqualListF teq ts vs s')

/-- The interface-method loop: compare method names, their package paths
and the method types, resolving each offset against the address of the
method header itself (`tm`, `vm`), advancing by the 8-byte header size. -/
def typesEqualMethodsF (w : World) (teq : Nat → Nat → List (Nat × Nat) → TRes) :
    Nat → Nat → List IMethod → List IMethod → List (Nat × Nat) → TRes
  | _, _, [], [], seen => .val true seen
  | _, _, [], _ :: _, _ => .thrown
  | _, _, _ :: _, [], _ => .thrown
  | ta, va, tm :: tms, vm :: vms, seen =>
    match resolveNameOff w ta tm.name, resolveNameOff w va vm.name with
    | some tn, some vn =>
      if nameName w.mem tn ≠ nameName w.mem vn then .val false seen
      else
        match namePkgPath w tn, namePkgPath w vn with
        | some pt, some pv =>
          if pt ≠ pv then .val false seen
          else
            match resolveTypeOff w ta tm.ityp, resolveTypeOff w va vm.ityp with
            | some tt, some vt =>
              (teq tt vt seen).andThen
                (fun s' => typesEqualMethodsF w teq (ta + 8) (va + 8) tms vms s')
            | _, _ => .thrown
        | _, _ => .thrown
    | _, _ => .thrown

/-- The struct-field loop: compare field name, field type, tag and packed
offset/anonymous word, in that order. -/
def typesEqualFieldsF (w : World) (teq : Nat → Nat → List (Nat × Nat) → TRes) :
    List StructField → List StructField → List (Nat × Nat) → TRes
  | [], [], seen => .val true seen
  | [], _ :: _, _ => .thrown
  | _ :: _, [], _ => .thrown
  | tf :: tfs, vf :: vfs, seen =>
    if nameName w.mem tf.fname ≠ nameName w.mem vf.fname then .val false seen
    else
      (teq tf.ftyp vf.ftyp seen).andThen (fun s' =>
        if nameTag w.mem tf.fname ≠ nameTag w.mem vf.fname then .val false s'
        else if tf.offsetAnon ≠ vf.offsetAnon then .val false s'
        else typesEqualFieldsF w teq tfs vfs s')

/-- The body of `typesEqual` after both descriptors have been fetched:
the common checks of `preCheck`, the primitive-kind early exits, and the
per-kind dispatch of Go's `switch kind` (an unrecognized kind tag throws:
the kind set is closed).  `teq` is the equality check used for the
recursive comparisons. -/
def typesEqualKind (w : World) (teq : Nat → Nat → List (Nat × Nat) → TRes)
    (t v : Nat) (dt dv : TypeDesc) (seen1 : List (Nat × Nat)) : TRes :=
  match preCheck w t v dt dv with
  | .thr => .thrown
  | .fls => .val false seen1
  | .ok =>
    if kindBool ≤ dt.kind &&& kindMask ∧ dt.kind &&& kindMask ≤ kindComplex128 then .val true seen1
    else if dt.kind &&& kindMask = kindString ∨ dt.kind &&& kindMask = kindUnsafePointer then .val true seen1
    else if dt.kind &&& kindMask = kindArray then
      match dt.ext, dv.ext with
      | .arr et _ lt, .arr ev _ lv =>
        (teq et ev seen1).withBool (fun b => b && decide (lt = lv))
      | _, _ => .thrown
    else if dt.kind &&& kindMask = kindChan then
      match dt.ext, dv.ext with
      | .chan et dirt, .chan ev dirv =>
        if dirt ≠ dirv then .val false seen1
        else teq et ev seen1
      | _, _ => .thrown
    else if dt.kind &&& kindMask = kindFunc then
      match dt.ext, dv.ext with
      | .func ict oct argst, .func icv ocv argsv =>
        if oct ≠ ocv ∨ ict ≠ icv then .val false seen1
        else
          (typesEqualListF teq (funcInList ict argst) (funcInList icv argsv) seen1).andThen
            (fun s' => typesEqualListF teq (funcOutList ict oct argst) (funcOutList icv ocv argsv) s')
      | _, _ => .thrown
    else if dt.kind &&& kindMask = kindInterface then
      match dt.ext, dv.ext with
      | .iface pkt mat mst, .iface pkv mav msv =>
        if nameName w.mem pkt ≠ nameName w.mem pkv then .val false seen1
        else if mst.length ≠ msv.length then .val false seen1
        else typesEqualMethodsF w teq mat mav mst msv seen1
      | _, _ => .thrown
    else if dt.kind &&& kindMask = kindMap then
      match dt.ext, dv.ext with
      | .mp kt et, .mp kv ev =>
        (teq kt kv seen1).andThen (fun s' => teq et ev s')
      | _, _ => .thrown
    else if dt.kind &&& kindMask = kindPtr then
      match dt.ext, dv.ext with
      | .ptr et, .ptr ev => teq et ev seen1
      | _, _ => .thrown
    else if dt.kind &&& kindMask = kindSlice then
      match dt.ext, dv.ext with
      | .slice et, .slice ev => teq et ev seen1
      | _, _ => .thrown
    else if dt.kind &&& kindMask = kindStruct then
      match dt.ext, dv.ext with
      | .strukt pkt fst_, .strukt pkv fsv =>
        if fst_.length ≠ fsv.length then .val false seen1
        else if nameName w.mem pkt ≠ nameName w.mem pkv then .val false seen1
        else typesEqualFieldsF w teq fst_ fsv seen1
      | _, _ => .thrown
    else .thrown

/-- `typesEqual`: cycle-safe structural equality of the descriptors at
addresses `t` and `v`.  The pair is inserted into the memo before any
recursive call; a revisited pair short-circuits to true.  The `fuel`
argument only makes the recursion structural; `typesEqual_fuel_sufficient`
(claim C2) shows it is never exhausted on a closed heap. -/
def typesEqual (w : World) : Nat → Nat → Nat → List (Nat × Nat) → TRes
  | 0, _, _, _ => .fuelOut
  | fuel + 1, t, v, seen =>
    if (t, v) ∈ seen then .val true seen
    else
      if t = v then .val true ((t, v) :: seen)
      else
        match w.heap t, w.heap v with
        | some dt, some dv =>
          typesEqualKind w (fun a b s => typesEqual w fuel a b s) t v dt dv ((t, v) :: seen)
        | _, _ => .thrown

/-- True when a comparison returned the verdict `true` (the boolean Go's
`typesEqual` returns). -/
def isTrueRes : TRes → Bool
  | .val true _ => true
  | _ => false

/-- The stored structural hash (`t.hash`) of the descriptor at an
address. -/
def typeHashAt (w : World) (a : Nat) : Nat :=
  ((w.heap a).map TypeDesc.hash).getD 0

/-- One step of the harvest loop of `typelinksinit`: fetch the descriptor
behind one typelink of the previous module (through its override map when
it has one) and append it to its hash bucket unless that exact address is
already present. -/
def collectOne (w : World) (prevTypes : Nat) (prevTypemap : Option (Int → Option Nat))
    (th : Nat → List Nat) (tl : Int) : Nat → List Nat :=
  let t := match prevTypemap with
    | none => uadd prevTypes (toUintptr tl)
    | some tm => (tm tl).getD 0
  let h := typeHashAt w t
  let tlist := th h
  if t ∈ tlist then th
  else fun x => if x = h then tlist ++ [t] else th x

/-- Harvest every descriptor reachable from `prev`'s typelink table into
the candidate map. -/
def collectModule (w : World) (prev : Moduledata) (th : Nat → List Nat) : Nat → List Nat :=
  prev.typelinks.foldl (fun acc tl => collectOne w prev.types prev.typemap acc tl) th

/-- Canonical descriptor for one typelink of the module being processed:
the first candidate in the descriptor's hash bucket that compares
structurally equal (fresh memo per comparison), else the module's own
descriptor. -/
def dedupType (w : World) (fuel : Nat) (th : Nat → List Nat) (mdTypes : Nat) (tl : Int) : Nat :=
  let t := uadd mdTypes (toUintptr tl)
  let h := typeHashAt w t
  match (th h).find? (fun c => isTrueRes (typesEqual w fuel t c [])) with
  | some c => c
  | none => t

/-- Build a module's override map: one entry per typelink offset, pointing
at the canonical descriptor for that offset. -/
def buildTypemap (w : World) (fuel : Nat) (th : Nat → List Nat) (mdTypes : Nat)
    (typelinks : List Int) : Int → Option Nat :=
  typelinks.foldl
    (fun tm tl => fun o => if o = tl then some (dedupType w fuel th mdTypes tl) else tm o)
    (fun _ => none)

/-- One iteration of `typelinksinit`'s module loop: harvest the previous
module's types, then build this module's override map when it has none.
The state is (previous module, candidate map, processed modules). -/
def typelinksinitStep (w : World) (fuel : Nat)
    (st : Moduledata × (Nat → List Nat) × List Moduledata) (md : Moduledata) :
    Moduledata × (Nat → List Nat) × List Moduledata :=
  let th1 := collectModule w st.1 st.2.1
  let md1 := match md.typemap with
    | none => { md with typemap := some (buildTypemap w fuel th1 md.types md.typelinks) }
    | some _ => md
  (md1, th1, st.2.2 ++ [md1])

/-- `typelinksinit`: a no-op unless the registry holds more than one
module; otherwise walk the modules from the second one on, deduplicating
each against the types harvested from its predecessors.  `fuel` feeds the
structural-equality comparisons (sufficient fuel by
`typesEqual_fuel_sufficient`). -/
def typelinksinit (fuel : Nat) (w : World) : World :=
  match w.modules with
  | [] => w
  | [_] => w
  | m0 :: rest =>
    let st := rest.foldl (typelinksinitStep w fuel) (m0, fun _ => [], [])
    { w with modules := m0 :: st.2.2 }

/-- Closure condition for the method types reachable from an interface
descriptor: every method type that resolves (against the address of its
own header) lies in `dom`. -/
def methodsClosedB (w : World) (dom : Finset Nat) : Nat → List IMethod → Bool
  | _, [] => true
  | ma, m :: ms =>
    (match resolveTypeOff w ma m.ityp with
     | some r => decide (r ∈ dom)
     | none => true) && methodsClosedB w dom (ma + 8) ms

/-- Every descriptor address `typesEqual` can recurse into from address
`a` lies in `dom`. -/
def childOKb (w : World) (dom : Finset Nat) (a : Nat) : Bool :=
  match w.heap a with
  | none => true
  | some d =>
    match d.ext with
    | .base => true
    | .arr e _ _ => decide (e ∈ dom)
    | .chan e _ => decide (e ∈ dom)
    | .func ic oc args => decide (∀ i, i < ic + (oc &&& (2 ^ 15 - 1)) → args i ∈ dom)
    | .iface _ ma ms => methodsClosedB w dom ma ms
    | .mp k e => decide (k ∈ dom) && decide (e ∈ dom)
    | .ptr e => decide (e ∈ dom)
    | .slice e => decide (e ∈ dom)
    | .strukt _ fs => fs.all (fun f => decide (f.ftyp ∈ dom))

/-- The descriptor graph restricted to `dom` is closed: recursion never
leaves `dom`. -/
def HeapClosed (w : World) (dom : Finset Nat) : Prop :=
  ∀ a ∈ dom, childOKb w dom a = true

/-- Number of descriptor pairs over `dom` not yet in the memo: the measure
that shrinks every time `typesEqual` inserts a pair before recursing. -/
def unseenCount (dom : Finset Nat) (seen : List (Nat × Nat)) : Nat :=
  ((dom ×ˢ dom).filter (fun p => p ∉ seen)).card

/-- A comparison result only ever extends the memo it was started with. -/
def SeenExt (seen : List (Nat × Nat)) : TRes → Prop
  | .val _ s' => seen ⊆ s'
  | _ => True

/-- The package-path rule as the specification words it (struct/interface
trailer first, uncommon data only otherwise) — for comparison against the
code's `pkgpath`. -/
def pkgpathSpecC3 (w : World) (t : Nat) : Option (List Nat) :=
  match w.heap t with
  | none => none
  | some d =>
    if d.kind &&& kindMask = kindStruct then
      match d.ext with
      | .strukt pk _ => some (nameName w.mem pk)
      | _ => none
    else if d.kind &&& kindMask = kindInterface then
      match d.ext with
      | .iface pk _ _ => some (nameName w.mem pk)
      | _ => none
    else if d.tflag &&& tflagUncommon ≠ 0 then
      match resolveNameOff w t d.uPkgpath with
      | some nb => some (nameName w.mem nb)
      | none => none
    else some []

/-- The code-address translation as the specification words it: a segment
is selected exactly when the offset lies in the half-open range
`[vaddr, vaddr + length)` — for comparison against the code's `textOff`. -/
def textOffSpecC4 (w : World) (t : Nat) (off : Int) : Option Nat :=
  match findModule w.modules t with
  | none =>
    match w.reflectM off with
    | some res => if res = 0 then none else some res
    | none => none
  | some md =>
    let ov := toUintptr off
    let res :=
      if 1 < md.textsectmap.length then
        match md.textsectmap.find?
            (fun s => decide (s.vaddr ≤ ov) && decide (ov < uadd s.vaddr s.length)) with
        | some s => usub (uadd s.baseaddr ov) s.vaddr
        | none => 0
      else uadd md.text ov
    if res > md.etext && !w.goarchIsWasm then none else some res

/-- Two-module world whose second module holds a descriptor structurally
equal to one of the first module, but with a different stored hash: the
deduplication pass keys candidates on the stored hash and misses it. -/
def d0c1 : TypeDesc := { hash := 7, tflag := 0, kind := 1, str := 500 }

/-- Second module's copy of the same (boolean) type, stored hash 8. -/
def d1c1 : TypeDesc := { hash := 8, tflag := 0, kind := 1, str := 500 }

/-- Second module's copy with the matching stored hash 7. -/
def d1c1b : TypeDesc := { hash := 7, tflag := 0, kind := 1, str := 500 }

/-- First module: types at `[1000, 2000)`, one typelink at offset 100. -/
def m0c1 : Moduledata := { types := 1000, etypes := 2000, typelinks := [100] }

/-- Second module: types at `[3000, 4000)`, one typelink at offset 100. -/
def m1c1 : Moduledata := { types := 3000, etypes := 4000, typelinks := [100] }

/-- Byte memory for the two-module worlds: the name record `"abc"` at 1500
(module 1) and at 3500 (module 2). -/
def memc1 : Nat → Nat := fun a =>
  if a = 1502 then 3 else if a = 1503 then 97 else if a = 1504 then 98 else if a = 1505 then 99
  else if a = 3502 then 3 else if a = 3503 then 97 else if a = 3504 then 98 else if a = 3505 then 99
  else 0

/-- The hash-mismatch world for claim C1's counterexample. -/
def wc1 : World :=
  { modules := [m0c1, m1c1], reflectM := fun _ => none,
    heap := fun a => if a = 1100 then some d0c1 else if a = 3100 then some d1c1 else none,
    mem := memc1 }

/-- Third module's copy, stored hash 7, at `[5000, 6000)`. -/
def d2c1 : TypeDesc := { hash := 7, tflag := 0, kind := 1, str := 500 }

/-- Third module: types at `[5000, 6000)`, one typelink at offset 100. -/
def m2c1 : Moduledata := { types := 5000, etypes := 6000, typelinks := [100] }

/-- Byte memory of the three-module world: the name record `"abc"` also at
5500 (module 3). -/
def memc1c : Nat → Nat := fun a =>
  if a = 5502 then 3 else if a = 5503 then 97 else if a = 5504 then 98 else if a = 5505 then 99
  else memc1 a

/-- The equal-hash variant over a three-module registry: deduplication
collapses the copies in modules 2 and 3 onto module 1's descriptor. -/
def wc1c : World :=
  { modules := [m0c1, m1c1, m2c1], reflectM := fun _ => none,
    heap := fun a => if a = 1100 then some d0c1 else if a = 3100 then some d1c1b
      else if a = 5100 then some d2c1 else none,
    mem := memc1c }

/-- Self-referential struct at 100: one field whose type is the pointer
descriptor at 120, which points back to 100. -/
def strS : TypeDesc := { hash := 1, tflag := 0, kind := 25, str := 236, ext := .strukt 0 [⟨320, 120, 0⟩] }

/-- Pointer descriptor at 120 pointing to the struct at 100. -/
def ptrS : TypeDesc := { hash := 2, tflag := 0, kind := 22, str := 246, ext := .ptr 100 }

/-- Independently constructed copy of the struct, at 200 (field type 220). -/
def strT : TypeDesc := { hash := 1, tflag := 0, kind := 25, str := 236, ext := .strukt 0 [⟨320, 220, 0⟩] }

/-- Pointer descriptor at 220 pointing to the struct at 200. -/
def ptrT : TypeDesc := { hash := 2, tflag := 0, kind := 22, str := 246, ext := .ptr 200 }

/-- Byte memory for the self-referential world: name records `"s"` at 300,
`"*s"` at 310, field name `"f"` at 320. -/
def memc2 : Nat → Nat := fun a =>
  if a = 302 then 1 else if a = 303 then 115
  else if a = 312 then 2 else if a = 313 then 42 else if a = 314 then 115
  else if a = 322 then 1 else if a = 323 then 102
  else 0

/-- World with two independently constructed self-referential struct
descriptors (100/120 and 200/220). -/
def wc2 : World :=
  { modules := [{ types := 64, etypes := 1024 }], reflectM := fun _ => none,
    heap := fun a =>
      if a = 100 then some strS else if a = 120 then some ptrS
      else if a = 200 then some strT else if a = 220 then some ptrT else none,
    mem := memc2 }

/-- The closed address domain of `wc2`. -/
def domc2 : Finset Nat := {100, 120, 200, 220}

/-- Struct-kind descriptor carrying uncommon data: the uncommon package
path resolves to `"A"` while the struct trailer's embedded package path is
`"B"`. -/
def d3c : TypeDesc :=
  { hash := 0, tflag := 1, kind := 25, str := 236, uPkgpath := 276, ext := .strukt 330 [] }

/-- World for the `pkgpath` ordering counterexample. -/
def w3c : World :=
  { modules := [{ types := 64, etypes := 1024 }], reflectM := fun _ => none,
    heap := fun a => if a = 100 then some d3c else none,
    mem := fun a =>
      if a = 302 then 1 else if a = 303 then 115
      else if a = 332 then 1 else if a = 333 then 66
      else if a = 342 then 1 else if a = 343 then 65
      else 0 }

/-- World with two code segments `[0,100]@1000` and `[100,200]@5000`: the
boundary offset 100 lies in the first segment's closed range and in the
second segment's half-open range. -/
def m4c : Moduledata :=
  { types := 64, etypes := 1024, text := 0, etext := 10000,
    textsectmap := [⟨0, 100, 1000⟩, ⟨100, 100, 5000⟩] }

/-- World for the code-segment boundary counterexample. -/
def w4c : World :=
  { modules := [m4c], reflectM := fun _ => none, heap := fun _ => none, mem := fun _ => 0 }

/-- World with no modules and an empty runtime-created object registry. -/
def w5c : World :=
  { modules := [], reflectM := fun _ => none, heap := fun _ => none, mem := fun _ => 0 }

/-- Named descriptor whose textual form is `"pkg.Foo"`. -/
def d7c : TypeDesc := { hash := 0, tflag := 4, kind := 24, str := 236 }

/-- World for the declared-name witness. -/
def w7c : World :=
  { modules := [{ types := 64, etypes := 1024 }], reflectM := fun _ => none,
    heap := fun a => if a = 100 then some d7c else none,
    mem := fun a =>
      if a = 302 then 7 else if a = 303 then 112 else if a = 304 then 107
      else if a = 305 then 103 else if a = 306 then 46 else if a = 307 then 70
      else if a = 308 then 111 else if a = 309 then 111 else 0 }

/-- World holding one full name record at 300: flags `6` (tag + package
path), identifier `"ab"`, tag `"tg"`, and a 4-byte offset `336` whose
resolution (against the record's own address) is the record `"P"` at 400. -/
def w8c : World :=
  { modules := [{ types := 64, etypes := 1024 }], reflectM := fun _ => none,
    heap := fun _ => none,
    mem := fun a =>
      if a = 300 then 6 else if a = 302 then 2 else if a = 303 then 97 else if a = 304 then 98
      else if a = 306 then 2 else if a = 307 then 116 else if a = 308 then 103
      else if a = 309 then 80 else if a = 310 then 1
      else if a = 402 then 1 else if a = 403 then 80
      else 0 }

/-- Descriptor with the extra-leading-star flag whose name resolves to the
empty string. -/
def d10c : TypeDesc := { hash := 0, tflag := 2, kind := 1, str := 236 }

/-- World for the extra-star slicing hazard. -/
def w10c : World :=
  { modules := [{ types := 64, etypes := 1024 }], reflectM := fun _ => none,
    heap := fun a => if a = 100 then some d10c else none,
    mem := fun _ => 0 }

/-- The append-unless-present step `typelinksinit` uses to grow a hash
bucket (proof-side abstraction of the harvest loop's inner step). -/
def bucketPush (acc : List Nat) (r : Nat) : List Nat := if r ∈ acc then acc else acc ++ [r]

theorem SeenExt.weaken {s1 s2 : List (Nat × Nat)} {r : TRes} (h : s1 ⊆ s2) (hr : SeenExt s2 r) :
    SeenExt s1 r := by
  cases r <;> simp only [SeenExt] at *
  exact List.Subset.trans h hr

theorem SeenExt.refl_val (seen : List (Nat × Nat)) (b : Bool) : SeenExt seen (.val b seen) := by
  simp [SeenExt]

theorem SeenExt.of_thrown (seen : List (Nat × Nat)) : SeenExt seen .thrown := by
  simp [SeenExt]

theorem SeenExt.of_fuelOut (seen : List (Nat × Nat)) : SeenExt seen .fuelOut := by
  simp [SeenExt]

theorem SeenExt.andThen {seen : List (Nat × Nat)} {r : TRes} {k : List (Nat × Nat) → TRes}
    (h1 : SeenExt seen r) (h2 : ∀ s', seen ⊆ s' → SeenExt s' (k s')) :
    SeenExt seen (r.andThen k) := by
  cases r with
  | val b s' =>
    cases b with
    | false => exact h1
    | true => exact SeenExt.weaken h1 (h2 s' h1)
  | thrown => exact h1
  | fuelOut => exact h1

theorem SeenExt.withBool {seen : List (Nat × Nat)} {r : TRes} {f : Bool → Bool}
    (h1 : SeenExt seen r) : SeenExt seen (r.withBool f) := by
  cases r <;> simp_all [TRes.withBool, SeenExt]

theorem seenExt_listF (teq : Nat → Nat → List (Nat × Nat) → TRes)
    (hT : ∀ a b s, SeenExt s (teq a b s)) :
    ∀ ts vs seen, SeenExt seen (typesEqualListF teq ts vs seen) := by
  intro ts
  induction ts with
  | nil => intro vs seen; exact SeenExt.refl_val _ _
  | cons t ts ih =>
    intro vs seen
    cases vs with
    | nil => exact SeenExt.of_thrown _
    | cons v vs => exact SeenExt.andThen (hT t v seen) (fun s' _ => ih vs s')

theorem seenExt_methodsF (w : World) (teq : Nat → Nat → List (Nat × Nat) → TRes)
    (hT : ∀ a b s, SeenExt s (teq a b s)) :
    ∀ tms vms ta va seen, SeenExt seen (typesEqualMethodsF w teq ta va tms vms seen) := by
  intro tms
  induction tms with
  | nil =>
    intro vms ta va seen
    cases vms with
    | nil => exact SeenExt.refl_val _ _
    | cons vm vms => exact SeenExt.of_thrown _
  | cons tm tms ih =>
    intro vms ta va seen
    cases vms with
    | nil => exact SeenExt.of_thrown _
    | cons vm vms =>
      show SeenExt seen
        (match resolveNameOff w ta tm.name, resolveNameOff w va vm.name with
        | some tn, some vn =>
          if nameName w.mem tn ≠ nameName w.mem vn then .val false seen
          else
            match namePkgPath w tn, namePkgPath w vn with
            | some pt, some pv =>
              if pt ≠ pv then .val false seen
              else
                match resolveTypeOff w ta tm.ityp, resolveTypeOff w va vm.ityp with
                | some tt, some vt =>
                  (teq tt vt seen).andThen
                    (fun s' => typesEqualMethodsF w teq (ta + 8) (va + 8) tms vms s')
                | _, _ => .thrown
            | _, _ => .thrown
        | _, _ => .thrown)
      split
      case h_1 tn vn _ =>
        split
        · exact SeenExt.refl_val _ _
        · split
          case h_1 =>
            split
            · exact SeenExt.refl_val _ _
            · split
              case h_1 =>
                exact SeenExt.andThen (hT _ _ seen) (fun s' _ => ih vms (ta + 8) (va + 8) s')
              case h_2 => exact SeenExt.of_thrown _
          case h_2 => exact SeenExt.of_thrown _
      case h_2 => exact SeenExt.of_thrown _

theorem seenExt_fieldsF (w : World) (teq : Nat → Nat → List (Nat × Nat) → TRes)
    (hT : ∀ a b s, SeenExt s (teq a b s)) :
    ∀ tfs vfs seen, SeenExt seen (typesEqualFieldsF w teq tfs vfs seen) := by
  intro tfs
  induction tfs with
  | nil =>
    intro vfs seen
    cases vfs with
    | nil => exact SeenExt.refl_val _ _
    | cons vf vfs => exact SeenExt.of_thrown _
  | cons tf tfs ih =>
    intro vfs seen
    cases vfs with
    | nil => exact SeenExt.of_thrown _
    | cons vf vfs =>
      show SeenExt seen
        (if nameName w.mem tf.fname ≠ nameName w.mem vf.fname then .val false seen
         else
           (teq tf.ftyp vf.ftyp seen).andThen (fun s' =>
             if nameTag w.mem tf.fname ≠ nameTag w.mem vf.fname then .val false s'
             else if tf.offsetAnon ≠ vf.offsetAnon then .val false s'
             else typesEqualFieldsF w teq tfs vfs s'))
      split
      · exact SeenExt.refl_val _ _
      · refine SeenExt.andThen (hT _ _ seen) (fun s' _ => ?_)
        split
        · exact SeenExt.refl_val _ _
        · split
          · exact SeenExt.refl_val _ _
          · exact ih vfs s'

theorem seenExt_kind (w : World) (teq : Nat → Nat → List (Nat × Nat) → TRes)
    (hT : ∀ a b s, SeenExt s (teq a b s)) :
    ∀ t v dt dv seen1, SeenExt seen1 (typesEqualKind w teq t v dt dv seen1) := by
  intro t v dt dv seen1
  rw [typesEqualKind]
  cases hpre : preCheck w t v dt dv with
  | thr => exact SeenExt.of_thrown _
  | fls => exact SeenExt.refl_val _ _
  | ok =>
    by_cases hk1 : kindBool ≤ dt.kind &&& kindMask ∧ dt.kind &&& kindMask ≤ kindComplex128
    · rw [if_pos hk1]; exact SeenExt.refl_val _ _
    rw [if_neg hk1]
    by_cases hk2 : dt.kind &&& kindMask = kindString ∨ dt.kind &&& kindMask = kindUnsafePointer
    · rw [if_pos hk2]; exact SeenExt.refl_val _ _
    rw [if_neg hk2]
    by_cases hk3 : dt.kind &&& kindMask = kindArray
    · rw [if_pos hk3]
      cases dt.ext <;> cases dv.ext <;> try exact SeenExt.of_thrown _
      exact SeenExt.withBool (hT _ _ _)
    rw [if_neg hk3]
    by_cases hk4 : dt.kind &&& kindMask = kindChan
    · rw [if_pos hk4]
      cases dt.ext <;> cases dv.ext <;> try exact SeenExt.of_thrown _
      rename_i et dirt ev dirv
      show SeenExt seen1 (if dirt ≠ dirv then TRes.val false seen1 else teq et ev seen1)
      split
      · exact SeenExt.refl_val _ _
      · exact hT _ _ _
    rw [if_neg hk4]
    by_cases hk5 : dt.kind &&& kindMask = kindFunc
    · rw [if_pos hk5]
      cases dt.ext <;> cases dv.ext <;> try exact SeenExt.of_thrown _
      rename_i ict oct argst icv ocv argsv
      show SeenExt seen1
        (if oct ≠ ocv ∨ ict ≠ icv then TRes.val false seen1
         else (typesEqualListF teq (funcInList ict argst) (funcInList icv argsv) seen1).andThen
           (fun s' => typesEqualListF teq (funcOutList ict oct argst) (funcOutList icv ocv argsv) s'))
      split
      · exact SeenExt.refl_val _ _
      · exact SeenExt.andThen (seenExt_listF teq hT _ _ _) (fun s' _ => seenExt_listF teq hT _ _ s')
    rw [if_neg hk5]
    by_cases hk6 : dt.kind &&& kindMask = kindInterface
    · rw [if_pos hk6]
      cases dt.ext <;> cases dv.ext <;> try exact SeenExt.of_thrown _
      rename_i pkt mat mst pkv mav msv
      show SeenExt seen1
        (if nameName w.mem pkt ≠ nameName w.mem pkv then TRes.val false seen1
         else if mst.length ≠ msv.length then TRes.val false seen1
         else typesEqualMethodsF w teq mat mav mst msv seen1)
      split
      · exact SeenExt.refl_val _ _
      · split
        · exact SeenExt.refl_val _ _
        · exact seenExt_methodsF w teq hT _ _ _ _ _
    rw [if_neg hk6]
    by_cases hk7 : dt.kind &&& kindMask = kindMap
    · rw [if_pos hk7]
      cases dt.ext <;> cases dv.ext <;> try exact SeenExt.of_thrown _
      exact SeenExt.andThen (hT _ _ _) (fun s' _ => hT _ _ s')
    rw [if_neg hk7]
    by_cases hk8 : dt.kind &&& kindMask = kindPtr
    · rw [if_pos hk8]
      cases dt.ext <;> cases dv.ext <;> try exact SeenExt.of_thrown _
      exact hT _ _ _
    rw [if_neg hk8]
    by_cases hk9 : dt.kind &&& kindMask = kindSlice
    · rw [if_pos hk9]
      cases dt.ext <;> cases dv.ext <;> try exact SeenExt.of_thrown _
      exact hT _ _ _
    rw [if_neg hk9]
    by_cases hk10 : dt.kind &&& kindMask = kindStruct
    · rw [if_pos hk10]
      cases dt.ext <;> cases dv.ext <;> try exact SeenExt.of_thrown _
      rename_i pkt fst_ pkv fsv
      show SeenExt seen1
        (if fst_.length ≠ fsv.length then TRes.val false seen1
         else if nameName w.mem pkt ≠ nameName w.mem pkv then TRes.val false seen1
         else typesEqualFieldsF w teq fst_ fsv seen1)
      split
      · exact SeenExt.refl_val _ _
      · split
        · exact SeenExt.refl_val _ _
        · exact seenExt_fieldsF w teq hT _ _ _
    rw [if_neg hk10]
    exact SeenExt.of_thrown _

theorem seenExt_typesEqual (w : World) :
    ∀ fuel t v seen, SeenExt seen (typesEqual w fuel t v seen) := by
  intro fuel
  induction fuel with
  | zero => intro t v seen; exact SeenExt.of_fuelOut _
  | succ fuel ih =>
    intro t v seen
    rw [typesEqual.eq_2]
    by_cases hmem : (t, v) ∈ seen
    · rw [if_pos hmem]; exact SeenExt.refl_val _ _
    · rw [if_neg hmem]
      apply SeenExt.weaken (List.subset_cons_self (t, v) seen)
      by_cases htv : t = v
      · rw [if_pos htv]; exact SeenExt.refl_val _ _
      · rw [if_neg htv]
        cases hht : w.heap t with
        | none => exact SeenExt.of_thrown _
        | some dt =>
          cases hhv : w.heap v with
          | none => exact SeenExt.of_thrown _
          | some dv => exact seenExt_kind w _ (fun a b s => ih a b s) t v dt dv _

theorem unseenCount_le_of_subset (dom : Finset Nat) {s1 s2 : List (Nat × Nat)} (h : s1 ⊆ s2) :
    unseenCount dom s2 ≤ unseenCount dom s1 := by
  apply Finset.card_le_card
  apply Finset.monotone_filter_right
  intro p hp hmem
  exact hp (h hmem)

theorem unseenCount_cons (dom : Finset Nat) (seen : List (Nat × Nat)) (t v : Nat)
    (ht : t ∈ dom) (hv : v ∈ dom) (hnot : (t, v) ∉ seen) :
    unseenCount dom ((t, v) :: seen) + 1 ≤ unseenCount dom seen := by
  have hmem : (t, v) ∈ (dom ×ˢ dom).filter (fun p => p ∉ seen) :=
    Finset.mem_filter.mpr ⟨Finset.mem_product.mpr ⟨ht, hv⟩, hnot⟩
  have hsub : (dom ×ˢ dom).filter (fun p => p ∉ (t, v) :: seen) ⊆
      ((dom ×ˢ dom).filter (fun p => p ∉ seen)).erase (t, v) := by
    intro p hp
    obtain ⟨hp1, hp2⟩ := Finset.mem_filter.mp hp
    rw [Finset.mem_erase]
    refine ⟨fun he => hp2 (he ▸ List.mem_cons_self _ _), ?_⟩
    exact Finset.mem_filter.mpr ⟨hp1, fun hm => hp2 (List.mem_cons_of_mem _ hm)⟩
  calc unseenCount dom ((t, v) :: seen) + 1
      ≤ (((dom ×ˢ dom).filter (fun p => p ∉ seen)).erase (t, v)).card + 1 :=
        Nat.add_le_add_right (Finset.card_le_card hsub) 1
    _ = unseenCount dom seen := Finset.card_erase_add_one hmem

theorem unseenCount_nil (dom : Finset Nat) : unseenCount dom [] = dom.card * dom.card := by
  unfold unseenCount
  rw [Finset.filter_true_of_mem (fun p _ => List.not_mem_nil p), Finset.card_product]

theorem TRes.withBool_ne_fuelOut {r : TRes} {f : Bool → Bool} (h1 : r ≠ .fuelOut) :
    r.withBool f ≠ .fuelOut := by
  cases r <;> simp_all [TRes.withBool]

theorem TRes.andThen_ne_fuelOut {r : TRes} {k : List (Nat × Nat) → TRes} (h1 : r ≠ .fuelOut)
    (h2 : ∀ s', r = .val true s' → k s' ≠ .fuelOut) : r.andThen k ≠ .fuelOut := by
  cases r with
  | val b s' =>
    cases b with
    | false => simp [TRes.andThen]
    | true => simpa [TRes.andThen] using h2 s' rfl
  | thrown => simp [TRes.andThen]
  | fuelOut => exact absurd rfl h1

theorem listF_ne_fuelOut (teq : Nat → Nat → List (Nat × Nat) → TRes)
    (hSeen : ∀ a b s, SeenExt s (teq a b s)) (dom : Finset Nat) (seen1 : List (Nat × Nat))
    (hTeq : ∀ a b s, seen1 ⊆ s → a ∈ dom → b ∈ dom → teq a b s ≠ .fuelOut) :
    ∀ ts vs seen, seen1 ⊆ seen → (∀ x ∈ ts, x ∈ dom) → (∀ x ∈ vs, x ∈ dom) →
      typesEqualListF teq ts vs seen ≠ .fuelOut := by
  intro ts
  induction ts with
  | nil =>
    intro vs seen _ _ _
    exact fun h => TRes.noConfusion h
  | cons t ts ih =>
    intro vs seen hsub hts hvs
    cases vs with
    | nil => exact fun h => TRes.noConfusion h
    | cons v vs =>
      refine TRes.andThen_ne_fuelOut
        (hTeq t v seen hsub (hts t (List.mem_cons_self t ts)) (hvs v (List.mem_cons_self v vs)))
        (fun s' hs' => ?_)
      have hx := hSeen t v seen
      rw [hs'] at hx
      exact ih vs s' (List.Subset.trans hsub hx)
        (fun x hxm => hts x (List.mem_cons_of_mem _ hxm))
        (fun x hxm => hvs x (List.mem_cons_of_mem _ hxm))

theorem methodsF_ne_fuelOut (w : World) (teq : Nat → Nat → List (Nat × Nat) → TRes)
    (hSeen : ∀ a b s, SeenExt s (teq a b s)) (dom : Finset Nat) (seen1 : List (Nat × Nat))
    (hTeq : ∀ a b s, seen1 ⊆ s → a ∈ dom → b ∈ dom → teq a b s ≠ .fuelOut) :
    ∀ tms vms ta va seen, seen1 ⊆ seen → methodsClosedB w dom ta tms = true →
      methodsClosedB w dom va vms = true →
      typesEqualMethodsF w teq ta va tms vms seen ≠ .fuelOut := by
  intro tms
  induction tms with
  | nil =>
    intro vms ta va seen _ _ _
    cases vms <;> exact fun h => TRes.noConfusion h
  | cons tm tms ih =>
    intro vms ta va seen hsub hMt hMv
    cases vms with
    | nil => exact fun h => TRes.noConfusion h
    | cons vm vms =>
      rw [methodsClosedB, Bool.and_eq_true] at hMt hMv
      obtain ⟨hMt1, hMt2⟩ := hMt
      obtain ⟨hMv1, hMv2⟩ := hMv
      show (match resolveNameOff w ta tm.name, resolveNameOff w va vm.name with
        | some tn, some vn =>
          if nameName w.mem tn ≠ nameName w.mem vn then TRes.val false seen
          else
            match namePkgPath w tn, namePkgPath w vn with
            | some pt, some pv =>
              if pt ≠ pv then TRes.val false seen
              else
                match resolveTypeOff w ta tm.ityp, resolveTypeOff w va vm.ityp with
                | some tt, some vt =>
                  (teq tt vt seen).andThen
                    (fun s' => typesEqualMethodsF w teq (ta + 8) (va + 8) tms vms s')
                | _, _ => .thrown
            | _, _ => .thrown
        | _, _ => .thrown) ≠ .fuelOut
      split
      case h_2 => exact fun h => TRes.noConfusion h
      case h_1 tn vn heqt heqv =>
        split
        · exact fun h => TRes.noConfusion h
        · split
          case h_2 => exact fun h => TRes.noConfusion h
          case h_1 pt pv heqp1 heqp2 =>
            split
            · exact fun h => TRes.noConfusion h
            · split
              case h_2 => exact fun h => TRes.noConfusion h
              case h_1 tt vt heqtt heqvt =>
                rw [heqtt] at hMt1
                rw [heqvt] at hMv1
                refine TRes.andThen_ne_fuelOut
                  (hTeq tt vt seen hsub (of_decide_eq_true hMt1) (of_decide_eq_true hMv1))
                  (fun s' hs' => ?_)
                have hx := hSeen tt vt seen
                rw [hs'] at hx
                exact ih vms (ta + 8) (va + 8) s' (List.Subset.trans hsub hx) hMt2 hMv2

theorem fieldsF_ne_fuelOut (w : World) (teq : Nat → Nat → List (Nat × Nat) → TRes)
    (hSeen : ∀ a b s, SeenExt s (teq a b s)) (dom : Finset Nat) (seen1 : List (Nat × Nat))
    (hTeq : ∀ a b s, seen1 ⊆ s → a ∈ dom → b ∈ dom → teq a b s ≠ .fuelOut) :
    ∀ tfs vfs seen, seen1 ⊆ seen → (∀ f ∈ tfs, f.ftyp ∈ dom) → (∀ f ∈ vfs, f.ftyp ∈ dom) →
      typesEqualFieldsF w teq tfs vfs seen ≠ .fuelOut := by
  intro tfs
  induction tfs with
  | nil =>
    intro vfs seen _ _ _
    cases vfs <;> exact fun h => TRes.noConfusion h
  | cons tf tfs ih =>
    intro vfs seen hsub htf hvf
    cases vfs with
    | nil => exact fun h => TRes.noConfusion h
    | cons vf vfs =>
      show (if nameName w.mem tf.fname ≠ nameName w.mem vf.fname then TRes.val false seen
         else
           (teq tf.ftyp vf.ftyp seen).andThen (fun s' =>
             if nameTag w.mem tf.fname ≠ nameTag w.mem vf.fname then TRes.val false s'
             else if tf.offsetAnon ≠ vf.offsetAnon then TRes.val false s'
             else typesEqualFieldsF w teq tfs vfs s')) ≠ .fuelOut
      split
      · exact fun h => TRes.noConfusion h
      · refine TRes.andThen_ne_fuelOut
          (hTeq tf.ftyp vf.ftyp seen hsub (htf tf (List.mem_cons_self tf tfs))
            (hvf vf (List.mem_cons_self vf vfs)))
          (fun s' hs' => ?_)
        have hx := hSeen tf.ftyp vf.ftyp seen
        rw [hs'] at hx
        have hrest := ih vfs s' (List.Subset.trans hsub hx)
          (fun f hf => htf f (List.mem_cons_of_mem _ hf))
          (fun f hf => hvf f (List.mem_cons_of_mem _ hf))
        split
        · exact fun h => TRes.noConfusion h
        · split
          · exact fun h => TRes.noConfusion h
          · exact hrest

theorem kind_ne_fuelOut (w : World) (dom : Finset Nat) (hcl : HeapClosed w dom)
    (teq : Nat → Nat → List (Nat × Nat) → TRes)
    (hSeen : ∀ a b s, SeenExt s (teq a b s)) (seen1 : List (Nat × Nat))
    (hTeq : ∀ a b s, seen1 ⊆ s → a ∈ dom → b ∈ dom → teq a b s ≠ .fuelOut)
    (t v : Nat) (dt dv : TypeDesc) (ht : t ∈ dom) (hv : v ∈ dom)
    (hht : w.heap t = some dt) (hhv : w.heap v = some dv) :
    typesEqualKind w teq t v dt dv seen1 ≠ .fuelOut := by
  have hct := hcl t ht
  have hcv := hcl v hv
  have hsubr : seen1 ⊆ seen1 := List.Subset.refl seen1
  rw [typesEqualKind]
  cases hpre : preCheck w t v dt dv with
  | thr => exact fun h => TRes.noConfusion h
  | fls => exact fun h => TRes.noConfusion h
  | ok =>
    by_cases hk1 : kindBool ≤ dt.kind &&& kindMask ∧ dt.kind &&& kindMask ≤ kindComplex128
    · rw [if_pos hk1]; exact fun h => TRes.noConfusion h
    rw [if_neg hk1]
    by_cases hk2 : dt.kind &&& kindMask = kindString ∨ dt.kind &&& kindMask = kindUnsafePointer
    · rw [if_pos hk2]; exact fun h => TRes.noConfusion h
    rw [if_neg hk2]
    by_cases hk3 : dt.kind &&& kindMask = kindArray
    · rw [if_pos hk3]
      cases hext : dt.ext <;> cases hexv : dv.ext <;> try exact fun h => TRes.noConfusion h
      rename_i et slt lt ev slv lv
      simp only [childOKb, hht, hext] at hct
      simp only [childOKb, hhv, hexv] at hcv
      exact TRes.withBool_ne_fuelOut
        (hTeq et ev seen1 hsubr (of_decide_eq_true hct) (of_decide_eq_true hcv))
    rw [if_neg hk3]
    by_cases hk4 : dt.kind &&& kindMask = kindChan
    · rw [if_pos hk4]
      cases hext : dt.ext <;> cases hexv : dv.ext <;> try exact fun h => TRes.noConfusion h
      rename_i et dirt ev dirv
      simp only [childOKb, hht, hext] at hct
      simp only [childOKb, hhv, hexv] at hcv
      show (if dirt ≠ dirv then TRes.val false seen1 else teq et ev seen1) ≠ .fuelOut
      split
      · exact fun h => TRes.noConfusion h
      · exact hTeq et ev seen1 hsubr (of_decide_eq_true hct) (of_decide_eq_true hcv)
    rw [if_neg hk4]
    by_cases hk5 : dt.kind &&& kindMask = kindFunc
    · rw [if_pos hk5]
      cases hext : dt.ext <;> cases hexv : dv.ext <;> try exact fun h => TRes.noConfusion h
      rename_i ict oct argst icv ocv argsv
      simp only [childOKb, hht, hext] at hct
      simp only [childOKb, hhv, hexv] at hcv
      have hct' := of_decide_eq_true hct
      have hcv' := of_decide_eq_true hcv
      show (if oct ≠ ocv ∨ ict ≠ icv then TRes.val false seen1
         else (typesEqualListF teq (funcInList ict argst) (funcInList icv argsv) seen1).andThen
           (fun s' => typesEqualListF teq (funcOutList ict oct argst) (funcOutList icv ocv argsv) s')) ≠ .fuelOut
      split
      · exact fun h => TRes.noConfusion h
      · refine TRes.andThen_ne_fuelOut
          (listF_ne_fuelOut teq hSeen dom seen1 hTeq (funcInList ict argst)
            (funcInList icv argsv) seen1 hsubr ?_ ?_) (fun s' hs' => ?_)
        · intro x hx
          simp only [funcInList, List.mem_map, List.mem_range] at hx
          obtain ⟨i, hi, rfl⟩ := hx
          exact hct' i (by omega)
        · intro x hx
          simp only [funcInList, List.mem_map, List.mem_range] at hx
          obtain ⟨i, hi, rfl⟩ := hx
          exact hcv' i (by omega)
        · have hx := seenExt_listF teq hSeen (funcInList ict argst) (funcInList icv argsv) seen1
          rw [hs'] at hx
          refine listF_ne_fuelOut teq hSeen dom seen1 hTeq (funcOutList ict oct argst)
            (funcOutList icv ocv argsv) s' hx ?_ ?_
          · intro x hxm
            simp only [funcOutList, List.mem_map, List.mem_range] at hxm
            obtain ⟨i, hi, rfl⟩ := hxm
            exact hct' (ict + i) (by omega)
          · intro x hxm
            simp only [funcOutList, List.mem_map, List.mem_range] at hxm
            obtain ⟨i, hi, rfl⟩ := hxm
            exact hcv' (icv + i) (by omega)
    rw [if_neg hk5]
    by_cases hk6 : dt.kind &&& kindMask = kindInterface
    · rw [if_pos hk6]
      cases hext : dt.ext <;> cases hexv : dv.ext <;> try exact fun h => TRes.noConfusion h
      rename_i pkt mat mst pkv mav msv
      simp only [childOKb, hht, hext] at hct
      simp only [childOKb, hhv, hexv] at hcv
      show (if nameName w.mem pkt ≠ nameName w.mem pkv then TRes.val false seen1
         else if mst.length ≠ msv.length then TRes.val false seen1
         else typesEqualMethodsF w teq mat mav mst msv seen1) ≠ .fuelOut
      split
      · exact fun h => TRes.noConfusion h
      · split
        · exact fun h => TRes.noConfusion h
        · exact methodsF_ne_fuelOut w teq hSeen dom seen1 hTeq mst msv mat mav seen1 hsubr hct hcv
    rw [if_neg hk6]
    by_cases hk7 : dt.kind &&& kindMask = kindMap
    · rw [if_pos hk7]
      cases hext : dt.ext <;> cases hexv : dv.ext <;> try exact fun h => TRes.noConfusion h
      rename_i kt et kv ev
      simp only [childOKb, hht, hext, Bool.and_eq_true] at hct
      simp only [childOKb, hhv, hexv, Bool.and_eq_true] at hcv
      refine TRes.andThen_ne_fuelOut
        (hTeq kt kv seen1 hsubr (of_decide_eq_true hct.1) (of_decide_eq_true hcv.1))
        (fun s' hs' => ?_)
      have hx := hSeen kt kv seen1
      rw [hs'] at hx
      exact hTeq et ev s' hx (of_decide_eq_true hct.2) (of_decide_eq_true hcv.2)
    rw [if_neg hk7]
    by_cases hk8 : dt.kind &&& kindMask = kindPtr
    · rw [if_pos hk8]
      cases hext : dt.ext <;> cases hexv : dv.ext <;> try exact fun h => TRes.noConfusion h
      rename_i et ev
      simp only [childOKb, hht, hext] at hct
      simp only [childOKb, hhv, hexv] at hcv
      exact hTeq et ev seen1 hsubr (of_decide_eq_true hct) (of_decide_eq_true hcv)
    rw [if_neg hk8]
    by_cases hk9 : dt.kind &&& kindMask = kindSlice
    · rw [if_pos hk9]
      cases hext : dt.ext <;> cases hexv : dv.ext <;> try exact fun h => TRes.noConfusion h
      rename_i et ev
      simp only [childOKb, hht, hext] at hct
      simp only [childOKb, hhv, hexv] at hcv
      exact hTeq et ev seen1 hsubr (of_decide_eq_true hct) (of_decide_eq_true hcv)
    rw [if_neg hk9]
    by_cases hk10 : dt.kind &&& kindMask = kindStruct
    · rw [if_pos hk10]
      cases hext : dt.ext <;> cases hexv : dv.ext <;> try exact fun h => TRes.noConfusion h
      rename_i pkt fst_ pkv fsv
      simp only [childOKb, hht, hext, List.all_eq_true] at hct
      simp only [childOKb, hhv, hexv, List.all_eq_true] at hcv
      show (if fst_.length ≠ fsv.length then TRes.val false seen1
         else if nameName w.mem pkt ≠ nameName w.mem pkv then TRes.val false seen1
         else typesEqualFieldsF w teq fst_ fsv seen1) ≠ .fuelOut
      split
      · exact fun h => TRes.noConfusion h
      · split
        · exact fun h => TRes.noConfusion h
        · refine fieldsF_ne_fuelOut w teq hSeen dom seen1 hTeq fst_ fsv seen1 hsubr
            (fun f hf => of_decide_eq_true (hct f hf)) (fun f hf => of_decide_eq_true (hcv f hf))
    rw [if_neg hk10]
    exact fun h => TRes.noConfusion h

theorem typesEqual_fuel_sufficient (w : World) (dom : Finset Nat) (hcl : HeapClosed w dom) :
    ∀ fuel t v seen, t ∈ dom → v ∈ dom → unseenCount dom seen < fuel →
      typesEqual w fuel t v seen ≠ .fuelOut := by
  intro fuel
  induction fuel with
  | zero => intro t v seen _ _ h; exact absurd h (Nat.not_lt_zero _)
  | succ fuel ih =>
    intro t v seen ht hv hfuel
    rw [typesEqual.eq_2]
    by_cases hmem : (t, v) ∈ seen
    · rw [if_pos hmem]; exact fun h => TRes.noConfusion h
    · rw [if_neg hmem]
      by_cases htv : t = v
      · rw [if_pos htv]; exact fun h => TRes.noConfusion h
      · rw [if_neg htv]
        have hfuel1 : unseenCount dom ((t, v) :: seen) < fuel := by
          have := unseenCount_cons dom seen t v ht hv hmem
          omega
        cases hht : w.heap t with
        | none => exact fun h => TRes.noConfusion h
        | some dt =>
          cases hhv : w.heap v with
          | none => exact fun h => TRes.noConfusion h
          | some dv =>
            refine kind_ne_fuelOut w dom hcl _ (fun a b s => seenExt_typesEqual w fuel a b s)
              ((t, v) :: seen) (fun a b s hsub ha hb => ih a b s ha hb ?_) t v dt dv ht hv hht hhv
            exact lt_of_le_of_lt (unseenCount_le_of_subset dom hsub) hfuel1

theorem shiftLeft_lor_byte (x y : Nat) (hy : y < 256) : x <<< 8 ||| y = 256 * x + y := by
  apply Nat.eq_of_testBit_eq
  intro i
  rw [Nat.testBit_or, Nat.testBit_shiftLeft]
  rw [show 256 * x = 2 ^ 8 * x by ring,
    Nat.testBit_mul_pow_two_add x (show y < 2 ^ 8 by omega) i]
  by_cases hi : i < 8
  · simp [hi, Nat.not_le.mpr hi]
  · rw [if_neg hi]
    have h8 : (2 : Nat) ^ 8 ≤ 2 ^ i := Nat.pow_le_pow_right (by omega) (Nat.not_lt.mp hi)
    have hyf : y.testBit i = false := Nat.testBit_lt_two_pow (by omega)
    simp [hyf, Nat.not_lt.mp hi]

theorem byteAt_lt (m : Nat → Nat) (a : Nat) : byteAt m a < 256 := by
  rw [byteAt]; omega

/-- C9: for every context address and every world, `resolveNameOff` and
`resolveTypeOff` called with offset 0 return the empty name (address 0 =
`name{}`) and the nil descriptor immediately — for any contents of the
module registry and the runtime-created object registry, and without a
fatal abort; so the fatal-on-unresolvable contract does not apply to
offset 0. -/
theorem c9_zero_offset_short_circuits (w : World) (base : Nat) :
    resolveNameOff w base 0 = some 0 ∧ resolveTypeOff w base 0 = some 0 ∧
    nameName w.mem 0 = [] := by
  refine ⟨?_, ?_, ?_⟩ <;> simp [resolveNameOff, resolveTypeOff, nameName]

/-- C5 (amended: nonzero offsets): for every nonzero offset and every
context address owned by no module, if the offset has no entry in the
runtime-created object registry then both resolvers abort (return `none`,
the model of `throw`) — they never return an address. -/
theorem c5_unresolvable_context_is_fatal (w : World) (base : Nat) (off : Int)
    (hmod : ∀ md ∈ w.modules, ¬ (md.types ≤ base ∧ base < md.etypes))
    (hreg : w.reflectM off = none) (hoff : off ≠ 0) :
    resolveNameOff w base off = none ∧ resolveTypeOff w base off = none := by
  have hfind : findModule w.modules base = none := by
    rw [findModule, List.find?_eq_none]
    intro md hmd
    simp only [Bool.and_eq_true, decide_eq_true_eq, not_and]
    intro h1 h2
    exact hmod md hmd ⟨h1, h2⟩
  constructor <;> simp [resolveNameOff, resolveTypeOff, hfind, hreg, hoff]

theorem c5_unresolvable_context_is_fatal_witness :
    resolveNameOff w5c 5 7 = none ∧ resolveTypeOff w5c 5 7 = none :=
  c5_unresolvable_context_is_fatal w5c 5 7
    (fun md hmd => by simp [w5c] at hmd) rfl (by decide)

/-- C5 counterexample: at offset 0 the claim as stated fails — with no
owning module and an empty registry, both resolvers return a value
(the empty name, the nil descriptor) instead of aborting. -/
theorem c5_offset_zero_counterexample :
    w5c.modules = [] ∧ w5c.reflectM 0 = none ∧
    resolveNameOff w5c 5 0 = some 0 ∧ resolveTypeOff w5c 5 0 = some 0 :=
  ⟨rfl, rfl, by decide, by decide⟩

/-- C6: the returned-types view has length equal to the stored output
count with the high (variadic) bit masked off, and `dotdotdot` is true
exactly when that high bit is set; in particular a function descriptor
with 2 inputs and output count `1 ||| variadicBit` is variadic with
exactly 1 returned type. -/
theorem c6_out_view_and_variadic_bit (ic oc : Nat) (args : Nat → Nat) :
    (funcOutList ic oc args).length = oc &&& (2 ^ 15 - 1) ∧
    (funcDotdotdot oc = true ↔ oc.testBit 15 = true) ∧
    (funcInList 2 args).length = 2 ∧
    funcDotdotdot (1 ||| 2 ^ 15) = true ∧
    (funcOutList 2 (1 ||| 2 ^ 15) args).length = 1 := by
  refine ⟨by simp [funcOutList], ?_, by simp [funcInList], by decide, ?_⟩
  · simp only [funcDotdotdot, bne_iff_ne, ne_eq, Nat.and_two_pow]
    cases h : oc.testBit 15 <;> simp
  · simp only [funcOutList, List.length_map, List.length_range]
    decide

/-- C2: `typesEqual` with an initially empty memo terminates for every
pair of descriptors of a domain-closed heap — fuel exceeding the number of
descriptor pairs is never exhausted, because each pair is inserted into
the memo before any recursive call; in particular the two independently
constructed self-referential struct descriptors of `wc2` (each containing
a pointer field to itself) are reported equal. -/
theorem c2_typesEqual_terminates :
    (∀ (w : World) (dom : Finset Nat) (t v fuel : Nat),
        HeapClosed w dom → t ∈ dom → v ∈ dom → dom.card * dom.card < fuel →
        typesEqual w fuel t v [] ≠ .fuelOut) ∧
    isTrueRes (typesEqual wc2 9 100 200 []) = true := by
  constructor
  · intro w dom t v fuel hcl ht hv hfuel
    refine typesEqual_fuel_sufficient w dom hcl fuel t v [] ht hv ?_
    rw [unseenCount_nil]
    exact hfuel
  · decide

theorem c2_typesEqual_terminates_witness :
    typesEqual wc2 17 100 200 [] ≠ .fuelOut :=
  c2_typesEqual_terminates.1 wc2 domc2 100 200 17
    (by unfold HeapClosed; decide) (by decide) (by decide) (by decide)

/-- C10: with the extra-leading-star flag set, `textualForm` returns the
resolved name with exactly its first byte removed, and the slice is in
bounds only when the resolved name is non-empty: on an empty resolved
name the operation faults (the function is not total). -/
theorem c10_extra_star_strips_first_byte (w : World) (t : Nat) (d : TypeDesc) (nb : Nat)
    (hflag : d.tflag &&& tflagExtraStar ≠ 0)
    (hres : resolveNameOff w t d.str = some nb) :
    (∀ c rest, nameName w.mem nb = c :: rest → typeString w t d = some rest) ∧
    (nameName w.mem nb = [] → typeString w t d = none) := by
  constructor
  · intro c rest hn
    simp [typeString, hres, hn, hflag]
  · intro hn
    simp [typeString, hres, hn, hflag]

theorem c10_extra_star_strips_first_byte_witness :
    typeString w10c 100 d10c = none :=
  (c10_extra_star_strips_first_byte w10c 100 d10c 300 (by decide) (by decide)).2 (by decide)

/-- C3 (amended: uncommon data takes precedence): `pkgpath` resolves the
uncommon trailer's package-path offset whenever uncommon data is present;
only otherwise does it read the package-path name embedded in the struct
or interface trailer; and it returns empty in all remaining cases. -/
theorem c3_pkgpath_uncommon_first (w : World) (t : Nat) (d : TypeDesc)
    (hd : w.heap t = some d) :
    (d.tflag &&& tflagUncommon ≠ 0 →
      pkgpath w t = (resolveNameOff w t d.uPkgpath).map (fun nb => nameName w.mem nb)) ∧
    (d.tflag &&& tflagUncommon = 0 → ∀ pk fs, d.ext = .strukt pk fs →
      d.kind &&& kindMask = kindStruct → pkgpath w t = some (nameName w.mem pk)) ∧
    (d.tflag &&& tflagUncommon = 0 → ∀ pk ma ms, d.ext = .iface pk ma ms →
      d.kind &&& kindMask = kindInterface → pkgpath w t = some (nameName w.mem pk)) ∧
    (d.tflag &&& tflagUncommon = 0 → d.kind &&& kindMask ≠ kindStruct →
      d.kind &&& kindMask ≠ kindInterface → pkgpath w t = some []) := by
  refine ⟨?_, ?_, ?_, ?_⟩
  · intro h
    cases hr : resolveNameOff w t d.uPkgpath <;> simp [pkgpath, hd, h, hr]
  · intro h0 pk fs hext hkind
    simp [pkgpath, hd, h0, hkind, hext]
  · intro h0 pk ma ms hext hkind
    simp [pkgpath, hd, h0, hkind, hext, kindStruct, kindInterface]
  · intro h0 hns hni
    simp [pkgpath, hd, h0, hns, hni]

theorem c3_pkgpath_uncommon_first_witness :
    pkgpath w3c 100 = (resolveNameOff w3c 100 d3c.uPkgpath).map (fun nb => nameName w3c.mem nb) :=
  (c3_pkgpath_uncommon_first w3c 100 d3c rfl).1 (by decide)

/-- C3 counterexample: a struct-kind descriptor carrying uncommon data.
The code returns the uncommon trailer's package path (`"A"`), while the
claim's trailer-first rule yields the embedded struct package path
(`"B"`). -/
theorem c3_pkgpath_counterexample :
    pkgpath w3c 100 = some [65] ∧ pkgpathSpecC3 w3c 100 = some [66] ∧
    pkgpath w3c 100 ≠ pkgpathSpecC3 w3c 100 :=
  ⟨by decide, by decide, by decide⟩

/-- C4 (amended: closed segment range): with more than one code segment,
`textOff` selects the first segment of the table whose closed range
`[vaddr, vaddr + length]` contains the offset, and the result is that
segment's relocated base address plus (offset - vaddr). -/
theorem c4_textoff_segment_selection (w : World) (t : Nat) (off : Int)
    (md : Moduledata) (s : TextSect)
    (hmd : findModule w.modules t = some md)
    (hmulti : 1 < md.textsectmap.length)
    (hfind : md.textsectmap.find? (fun s' => decide (s'.vaddr ≤ toUintptr off) &&
        decide (toUintptr off ≤ uadd s'.vaddr s'.length)) = some s)
    (hv : s.vaddr ≤ toUintptr off)
    (hw1 : s.baseaddr + toUintptr off < wordSize)
    (hbound : s.baseaddr + (toUintptr off - s.vaddr) ≤ md.etext) :
    textOff w t off = some (s.baseaddr + (toUintptr off - s.vaddr)) := by
  have hov : toUintptr off < wordSize := by
    rw [toUintptr]
    have h1 := Int.emod_nonneg off (by norm_num [wordSize] : (wordSize : Int) ≠ 0)
    have h2 := Int.emod_lt_of_pos off (by norm_num [wordSize] : (0 : Int) < (wordSize : Int))
    omega
  have hres : usub (uadd s.baseaddr (toUintptr off)) s.vaddr =
      s.baseaddr + (toUintptr off - s.vaddr) := by
    rw [uadd, usub, Nat.mod_eq_of_lt hw1, Nat.mod_eq_of_lt hw1,
      Nat.mod_eq_of_lt (show s.vaddr < wordSize by omega)]
    rw [show s.baseaddr + toUintptr off + wordSize - s.vaddr =
      s.baseaddr + (toUintptr off - s.vaddr) + wordSize by omega]
    rw [Nat.add_mod_right, Nat.mod_eq_of_lt (by omega)]
  simp only [textOff, hmd, if_pos hmulti, hfind, hres]
  rw [if_neg]
  intro hc
  rw [Bool.and_eq_true, decide_eq_true_eq] at hc
  exact absurd hc.1 (not_lt.mpr hbound)

theorem c4_textoff_segment_selection_witness :
    textOff w4c 100 100 = some 1100 := by
  have h := c4_textoff_segment_selection w4c 100 100 m4c ⟨0, 100, 1000⟩
    rfl (by decide) rfl (by decide) (by decide) (by decide)
  simpa using h

/-- C4 counterexample: the boundary offset 100 lies in the first
segment's closed range `[0, 100]` and only in the second segment's
half-open range `[100, 200)`; the code translates through the first
segment (1100) while the claim's half-open rule yields the second
segment's base (5000). -/
theorem c4_textoff_counterexample :
    textOff w4c 100 100 = some 1100 ∧ textOffSpecC4 w4c 100 100 = some 5000 ∧
    textOff w4c 100 100 ≠ textOffSpecC4 w4c 100 100 :=
  ⟨by decide, by decide, by decide⟩

theorem getD_ne_dot_of_not_mem {s : List Nat} (h : 46 ∉ s) (i : Nat) : s.getD i 0 ≠ 46 := by
  by_cases hi : i < s.length
  · rw [List.getD_eq_getElem s 0 hi]
    intro hc
    exact h (hc ▸ List.getElem_mem hi)
  · rw [List.getD_eq_default s 0 (Nat.not_lt.mp hi)]
    omega

theorem lastDotIdx_of_no_dot (s : List Nat) (h : ∀ i, s.getD i 0 ≠ 46) :
    ∀ n, lastDotIdx s n = -1 := by
  intro n
  induction n with
  | zero => rfl
  | succ i ih => rw [lastDotIdx, if_neg (h i)]; exact ih

theorem lastDotIdx_last_dot (s₁ s₂ : List Nat) (h : 46 ∉ s₂) :
    ∀ k, lastDotIdx (s₁ ++ 46 :: s₂) (s₁.length + 1 + k) = s₁.length := by
  intro k
  induction k with
  | zero =>
    show lastDotIdx (s₁ ++ 46 :: s₂) (s₁.length + 1) = s₁.length
    rw [lastDotIdx, if_pos]
    rw [List.getD_append_right _ _ _ _ (Nat.le_refl _), Nat.sub_self]
    rfl
  | succ k ih =>
    show lastDotIdx (s₁ ++ 46 :: s₂) (s₁.length + 1 + k + 1) = s₁.length
    rw [lastDotIdx, if_neg]
    · exact ih
    · rw [List.getD_append_right _ _ _ _ (by omega)]
      rw [show s₁.length + 1 + k - s₁.length = k + 1 by omega]
      show (46 :: s₂).getD (k + 1) 0 ≠ 46
      have : (46 :: s₂).getD (k + 1) 0 = s₂.getD k 0 := rfl
      rw [this]
      exact getD_ne_dot_of_not_mem h k

/-- C7: `declaredName` returns the empty string when the is-named flag is
clear; otherwise it returns the suffix of the textual form after the last
`'.'` byte, or the whole textual form when it contains no `'.'`. -/
theorem c7_declared_name (w : World) (t : Nat) (d : TypeDesc) (hd : w.heap t = some d) :
    (d.tflag &&& tflagNamed = 0 → typeName w t = some []) ∧
    (d.tflag &&& tflagNamed ≠ 0 → ∀ s, typeString w t d = some s →
      (46 ∉ s → typeName w t = some s) ∧
      ∀ s₁ s₂, s = s₁ ++ 46 :: s₂ → 46 ∉ s₂ → typeName w t = some s₂) := by
  constructor
  · intro h
    simp [typeName, hd, h]
  · intro h s hs
    constructor
    · intro hno
      have hidx := lastDotIdx_of_no_dot s (fun i => getD_ne_dot_of_not_mem hno i) s.length
      simp [typeName, hd, h, hs, hidx]
    · intro s₁ s₂ hsplit hno
      subst hsplit
      have hlen : (s₁ ++ 46 :: s₂).length = s₁.length + 1 + s₂.length := by
        simp [List.length_append]
        omega
      have hidx := lastDotIdx_last_dot s₁ s₂ hno s₂.length
      rw [← hlen] at hidx
      have hdrop : (s₁ ++ 46 :: s₂).drop (s₁.length + 1) = s₂ := by
        rw [List.append_cons]
        have h1 : (s₁ ++ [46]).length = s₁.length + 1 := by simp
        rw [← h1, List.drop_left]
      simp only [typeName, hd, hs, h, if_neg h]
      rw [hidx]
      norm_num [hdrop]

theorem c7_declared_name_witness : typeName w7c 100 = some [70, 111, 111] :=
  ((c7_declared_name w7c 100 d7c rfl).2 (by decide) [112, 107, 103, 46, 70, 111, 111]
    (by decide)).2 [112, 107, 103] [70, 111, 111] rfl (by decide)

/-- C8: for a well-formed (non-nil) name record at `b`: the identifier
length is the 16-bit big-endian value at byte offsets 1-2 and the
identifier bytes start at offset 3; the tag length (16-bit big-endian) and
tag bytes follow the identifier exactly when flags bit 1 is set; and when
flags bit 2 is set, the 4-byte offset located after the identifier (and
after any tag) is resolved through the offset resolver against the
record's own address, and the resolved record's identifier is returned as
the package path. -/
theorem c8_name_record_layout (w : World) (b : Nat) (hb : b ≠ 0) :
    nameLen w.mem b = 256 * byteAt w.mem (b + 1) + byteAt w.mem (b + 2) ∧
    (nameLen w.mem b ≠ 0 →
      nameName w.mem b = (List.range (nameLen w.mem b)).map (fun i => byteAt w.mem (b + 3 + i))) ∧
    (byteAt w.mem b &&& 2 = 0 → tagLen w.mem b = 0) ∧
    (byteAt w.mem b &&& 2 ≠ 0 →
      tagLen w.mem b = 256 * byteAt w.mem (b + (3 + nameLen w.mem b)) +
        byteAt w.mem (b + (3 + nameLen w.mem b) + 1)) ∧
    (tagLen w.mem b ≠ 0 →
      nameTag w.mem b = (List.range (tagLen w.mem b)).map
        (fun i => byteAt w.mem (b + 3 + nameLen w.mem b + 2 + i))) ∧
    (byteAt w.mem b &&& 4 ≠ 0 → ∀ pkPos : Nat,
      pkPos = (if 0 < tagLen w.mem b then 3 + nameLen w.mem b + 2 + tagLen w.mem b
               else 3 + nameLen w.mem b) →
      namePkgPath w b = (resolveNameOff w b (decodeI32le (byteAt w.mem (b + pkPos))
        (byteAt w.mem (b + pkPos + 1)) (byteAt w.mem (b + pkPos + 2))
        (byteAt w.mem (b + pkPos + 3)))).map (fun nb => nameName w.mem nb)) := by
  refine ⟨?_, ?_, ?_, ?_, ?_, ?_⟩
  · rw [nameLen, shiftLeft_lor_byte _ _ (byteAt_lt _ _)]
  · intro h
    simp [nameName, hb, h]
  · intro h
    simp [tagLen, h]
  · intro h
    rw [tagLen, if_neg h, shiftLeft_lor_byte _ _ (byteAt_lt _ _)]
  · intro h
    simp [nameTag, h]
  · intro h pkPos hpk
    subst hpk
    rw [namePkgPath, if_neg hb, if_neg h]

theorem c8_name_record_layout_witness : namePkgPath w8c 300 = some [80] := by
  have h := (c8_name_record_layout w8c 300 (by decide)).2.2.2.2.2 (by decide) 9 (by decide)
  rw [h]
  decide

theorem find?_foldl_bucketPush (p : Nat → Bool) :
    ∀ (l acc : List Nat), (l.foldl bucketPush acc).find? p = ((acc.find? p).or (l.find? p)) := by
  intro l
  induction l with
  | nil => intro acc; simp
  | cons r l ih =>
    intro acc
    rw [List.foldl_cons, ih (bucketPush acc r)]
    by_cases hmem : r ∈ acc
    · rw [bucketPush, if_pos hmem]
      cases hacc : acc.find? p with
      | none =>
        have hnr : ¬ p r := by
          intro hc
          exact absurd hc (List.find?_eq_none.mp hacc r hmem)
        rw [List.find?_cons_of_neg l hnr]
      | some x => simp
    · rw [bucketPush, if_neg hmem, List.find?_append]
      cases hacc : acc.find? p with
      | none =>
        by_cases hpr : p r
        · rw [List.find?_cons_of_pos l hpr]
          simp [List.find?, hpr]
        · rw [List.find?_cons_of_neg l hpr]
          simp [List.find?, hpr]
      | some x => simp

theorem collect_bucket (w : World) (pT : Nat) (hh : Nat) :
    ∀ (L : List Int) (th : Nat → List Nat),
      (L.foldl (fun acc tl => collectOne w pT none acc tl) th) hh =
        ((L.map (fun tl => uadd pT (toUintptr tl))).filter
          (fun a => decide (typeHashAt w a = hh))).foldl bucketPush (th hh) := by
  intro L
  induction L with
  | nil => intro th; rfl
  | cons tl L ih =>
    intro th
    rw [List.foldl_cons, ih (collectOne w pT none th tl), List.map_cons]
    have hstep : (collectOne w pT none th tl) hh =
        if typeHashAt w (uadd pT (toUintptr tl)) = hh
        then bucketPush (th hh) (uadd pT (toUintptr tl)) else th hh := by
      rw [collectOne]
      by_cases hin : uadd pT (toUintptr tl) ∈ th (typeHashAt w (uadd pT (toUintptr tl)))
      · rw [if_pos hin]
        by_cases hhh : typeHashAt w (uadd pT (toUintptr tl)) = hh
        · rw [if_pos hhh, bucketPush, if_pos (hhh ▸ hin)]
        · rw [if_neg hhh]
      · rw [if_neg hin]
        by_cases hhh : typeHashAt w (uadd pT (toUintptr tl)) = hh
        · rw [if_pos hhh]
          rw [if_pos hhh.symm, bucketPush, if_neg (hhh ▸ hin), hhh]
        · rw [if_neg hhh, if_neg (fun hc => hhh hc.symm)]
    by_cases hq : typeHashAt w (uadd pT (toUintptr tl)) = hh
    · rw [List.filter_cons_of_pos (by simpa using hq), List.foldl_cons, hstep, if_pos hq]
    · rw [List.filter_cons_of_neg (by simpa using hq), hstep, if_neg hq]

theorem find?_filter_list (p q : Nat → Bool) : ∀ l : List Nat,
    (l.filter q).find? p = l.find? (fun a => q a && p a) := by
  intro l
  induction l with
  | nil => rfl
  | cons a l ih =>
    by_cases hq : q a
    · rw [List.filter_cons_of_pos hq]
      by_cases hp : p a
      · rw [List.find?_cons_of_pos (List.filter q l) hp,
          List.find?_cons_of_pos l (by simp [hq, hp])]
      · rw [List.find?_cons_of_neg (List.filter q l) hp,
          List.find?_cons_of_neg l (by simp [hq, hp]), ih]
    · rw [List.filter_cons_of_neg hq, List.find?_cons_of_neg l (by simp [hq]), ih]

theorem buildTypemap_lookup (w : World) (fuel : Nat) (th : Nat → List Nat) (mdTypes : Nat) :
    ∀ (L : List Int) (g : Int → Option Nat) (o : Int),
      (L.foldl (fun tm tl => fun o' =>
        if o' = tl then some (dedupType w fuel th mdTypes tl) else tm o') g) o =
      if o ∈ L then some (dedupType w fuel th mdTypes o) else g o := by
  intro L
  induction L with
  | nil => intro g o; simp
  | cons tl L ih =>
    intro g o
    rw [List.foldl_cons, ih]
    by_cases hL : o ∈ L
    · rw [if_pos hL, if_pos (List.mem_cons_of_mem tl hL)]
    · rw [if_neg hL]
      by_cases heq : o = tl
      · subst heq
        rw [if_pos rfl, if_pos (List.mem_cons_self o L)]
      · simp only [if_neg heq]
        rw [if_neg (by simp [heq, hL])]

theorem typelinksinitStep_acc (w : World) (fuel : Nat) :
    ∀ (L : List Moduledata) (st : Moduledata × (Nat → List Nat) × List Moduledata),
      ∃ ms, (L.foldl (typelinksinitStep w fuel) st).2.2 = st.2.2 ++ ms := by
  intro L
  induction L with
  | nil => intro st; exact ⟨[], by simp⟩
  | cons md L ih =>
    intro st
    rw [List.foldl_cons]
    obtain ⟨ms, hms⟩ := ih (typelinksinitStep w fuel st md)
    refine ⟨(typelinksinitStep w fuel st md).1 :: ms, ?_⟩
    rw [hms]
    have hstep : (typelinksinitStep w fuel st md).2.2 =
        st.2.2 ++ [(typelinksinitStep w fuel st md).1] := rfl
    rw [hstep, List.append_assoc]
    rfl

/-- C1 (amended: equal stored hashes, first match): after the
deduplication pass has run over a module registry holding more than one
module, for a typelink descriptor `t0` of the first module and a
structurally-equal typelink descriptor `t1` of the second module that
carries the same stored hash — `t0` being the first typelink of the first
module whose descriptor both shares that hash and compares structurally
equal to `t1`, and neither of the two modules carrying a pre-existing
override map — every subsequent `resolveTypeOff` call for either
descriptor's typelink offset, relative to its own module, returns the
identical canonical descriptor address `t0`; the later iterations of the
pass never disturb the second module's override entry. -/
theorem c1_dedup_canonical (w : World) (fuel : Nat) (m0 m1 : Moduledata)
    (rest : List Moduledata)
    (pre post : List Int) (tl0 tl1 : Int) (t0 t1 : Nat) (base0 base1 : Nat)
    (hmods : w.modules = m0 :: m1 :: rest)
    (htm0 : m0.typemap = none)
    (htm1 : m1.typemap = none)
    (hlinks0 : m0.typelinks = pre ++ tl0 :: post)
    (hlinks1 : tl1 ∈ m1.typelinks)
    (ht0 : t0 = uadd m0.types (toUintptr tl0))
    (ht1 : t1 = uadd m1.types (toUintptr tl1))
    (hhash : typeHashAt w t0 = typeHashAt w t1)
    (heq : isTrueRes (typesEqual w fuel t1 t0 []) = true)
    (hpre : ∀ tl ∈ pre, ¬ (typeHashAt w (uadd m0.types (toUintptr tl)) = typeHashAt w t1 ∧
        isTrueRes (typesEqual w fuel t1 (uadd m0.types (toUintptr tl)) []) = true))
    (htl0nz : tl0 ≠ 0) (htl1nz : tl1 ≠ 0) (ht0nz : t0 ≠ 0)
    (hb0 : m0.types ≤ base0 ∧ base0 < m0.etypes)
    (hb1no : ¬ (m0.types ≤ base1 ∧ base1 < m0.etypes))
    (hb1 : m1.types ≤ base1 ∧ base1 < m1.etypes)
    (hrange0 : ¬ t0 > m0.etypes) :
    resolveTypeOff (typelinksinit fuel w) base0 tl0 = some t0 ∧
    resolveTypeOff (typelinksinit fuel w) base1 tl1 = some t0 := by
  have hth1 : collectModule w m0 (fun _ => []) =
      m0.typelinks.foldl (fun acc tl => collectOne w m0.types none acc tl) (fun _ => []) := by
    rw [collectModule, htm0]
  have hstep1 : typelinksinitStep w fuel (m0, fun _ => [], ([] : List Moduledata)) m1 =
      ({ m1 with typemap := some (buildTypemap w fuel (collectModule w m0 (fun _ => []))
          m1.types m1.typelinks) }, collectModule w m0 (fun _ => []),
        [{ m1 with typemap := some (buildTypemap w fuel (collectModule w m0 (fun _ => []))
          m1.types m1.typelinks) }]) := by
    simp [typelinksinitStep, htm1]
  obtain ⟨ms, hms⟩ := typelinksinitStep_acc w fuel rest
    (typelinksinitStep w fuel (m0, fun _ => [], []) m1)
  rw [hstep1] at hms
  have hmods' : (typelinksinit fuel w).modules =
      m0 :: { m1 with typemap := some (buildTypemap w fuel (collectModule w m0 (fun _ => []))
        m1.types m1.typelinks) } :: ms := by
    simp only [typelinksinit, hmods, List.foldl_cons]
    rw [hstep1, hms]
    simp
  have hfind : ((collectModule w m0 (fun _ => [])) (typeHashAt w t1)).find?
      (fun c => isTrueRes (typesEqual w fuel t1 c [])) = some t0 := by
    rw [hth1, collect_bucket w m0.types (typeHashAt w t1) m0.typelinks (fun _ => []),
      find?_foldl_bucketPush]
    simp only [List.find?_nil, Option.none_or]
    rw [find?_filter_list, hlinks0, List.map_append, List.map_cons, List.find?_append]
    have h1 : (pre.map (fun tl => uadd m0.types (toUintptr tl))).find?
        (fun a => decide (typeHashAt w a = typeHashAt w t1) &&
          isTrueRes (typesEqual w fuel t1 a [])) = none := by
      rw [List.find?_eq_none]
      intro a ha
      rw [List.mem_map] at ha
      obtain ⟨tl, htl, rfl⟩ := ha
      intro hc
      rw [Bool.and_eq_true, decide_eq_true_eq] at hc
      exact hpre tl htl hc
    rw [h1, Option.none_or, List.find?_cons_of_pos _ (by
      rw [Bool.and_eq_true, decide_eq_true_eq, ← ht0]
      exact ⟨hhash, heq⟩)]
    rw [← ht0]
  have hlook : (buildTypemap w fuel (collectModule w m0 (fun _ => []))
      m1.types m1.typelinks) tl1 = some t0 := by
    rw [buildTypemap, buildTypemap_lookup, if_pos hlinks1]
    congr 1
    simp only [dedupType, ← ht1, hfind]
  constructor
  · rw [resolveTypeOff, if_neg htl0nz, hmods']
    simp only [findModule]
    rw [List.find?_cons_of_pos _ (by
      rw [Bool.and_eq_true, decide_eq_true_eq, decide_eq_true_eq]
      exact hb0)]
    simp only [htm0, ne_eq, not_true_eq_false, ← ht0]
    rw [if_neg (by simp), if_neg hrange0]
  · rw [resolveTypeOff, if_neg htl1nz, hmods']
    simp only [findModule]
    rw [List.find?_cons_of_neg _ (by
      rw [Bool.and_eq_true, decide_eq_true_eq, decide_eq_true_eq]
      exact hb1no)]
    rw [List.find?_cons_of_pos _ (by
      rw [Bool.and_eq_true, decide_eq_true_eq, decide_eq_true_eq]
      exact hb1)]
    simp only [hlook, Option.getD_some]
    rw [if_pos ht0nz]

theorem c1_dedup_canonical_witness :
    resolveTypeOff (typelinksinit 10 wc1c) 1100 100 = some 1100 ∧
    resolveTypeOff (typelinksinit 10 wc1c) 3100 100 = some 1100 :=
  c1_dedup_canonical wc1c 10 m0c1 m1c1 [m2c1] [] [] 100 100 1100 3100 1100 3100
    rfl rfl rfl rfl (by decide) (by decide) (by decide) (by decide) (by decide)
    (by simp) (by decide) (by decide) (by decide) (by decide) (by decide)
    (by decide) (by decide)

/-- C1 counterexample: the descriptors at 1100 (module 1) and 3100
(module 2) are structurally equal and sourced from two distinct modules,
yet after `typelinksinit` the resolver returns two different addresses for
their typelink offsets, because their stored hash fields differ (7 vs 8)
and deduplication keys its candidate map on the stored hash. -/
theorem c1_dedup_counterexample :
    isTrueRes (typesEqual wc1 10 3100 1100 []) = true ∧
    resolveTypeOff (typelinksinit 10 wc1) 1100 100 = some 1100 ∧
    resolveTypeOff (typelinksinit 10 wc1) 3100 100 = some 3100 ∧
    (1100 : Nat) ≠ 3100 :=
  ⟨by decide, by decide, by decide, by decide⟩
